import Mathlib

set_option maxHeartbeats 1000000

/-!
Shallow embedding of the typing-practice extension's session engine.

Sources:
* src/src/content/metrics-calculator.js  (MetricsCalculator)
* src/unnamed/part_003                   (TextSelectionHandler, TypingInterface, InputProcessor)
* src/unnamed/part_006                   (TypingSession)

Text is modelled as `List Char`; JS numbers that hold exact counts are `Nat`,
JS arithmetic on times and percentages is modelled over `ℚ` with explicit
rounding functions mirroring `Math.round`.
-/

/-- Character class matched by the JavaScript regexp `\s` (and stripped by
`String.prototype.trim`): ASCII whitespace, NBSP and the Unicode space and
line separators. -/
def isJsWhitespace (c : Char) : Bool :=
  c.toNat = 32 || c.toNat = 9 || c.toNat = 10 || c.toNat = 13 || c.toNat = 11 ||
  c.toNat = 12 || c.toNat = 0xa0 || c.toNat = 0x1680 ||
  (0x2000 ≤ c.toNat && c.toNat ≤ 0x200a) || c.toNat = 0x2028 || c.toNat = 0x2029 ||
  c.toNat = 0x202f || c.toNat = 0x205f || c.toNat = 0x3000 || c.toNat = 0xfeff

/-- Embedding of `String.prototype.trim`: strip leading and trailing
whitespace. -/
def jsTrim (l : List Char) : List Char :=
  ((l.dropWhile isJsWhitespace).reverse.dropWhile isJsWhitespace).reverse

/-- Embedding of `Math.round`: rounds half-way cases toward positive
infinity. -/
def jsRound (q : ℚ) : ℤ := ⌊q + 1 / 2⌋

/-- The source's two-decimal rounding idiom `Math.round(x * 100) / 100`. -/
def jsRound2 (q : ℚ) : ℚ := (jsRound (q * 100) : ℚ) / 100

/-- Bounded left-to-right search: least index `i ≥ s` with `p i`, giving up
after `fuel` steps. -/
def firstIdxAux (p : Nat → Bool) : Nat → Nat → Option Nat
  | 0, _ => none
  | fuel + 1, s => if p s then some s else firstIdxAux p fuel (s + 1)

/-- Least `i` with `s ≤ i < bound` and `p i = true`; the uniform model of the
JS left-to-right scans (`indexOf`, regexp `exec`) used below. -/
def firstIdxFrom (p : Nat → Bool) (s bound : Nat) : Option Nat :=
  firstIdxAux p (bound - s) s

/-- Whether the pattern `pat` occurs in `text` starting at index `i`. -/
def matchesAt (text : List Char) : List Char → Nat → Bool
  | [], _ => true
  | c :: rest, i => decide (text[i]? = some c) && matchesAt text rest (i + 1)

/-- Embedding of `String.prototype.indexOf(pat, s)`: the least index at or
after `s` at which `pat` occurs, `none` playing the role of `-1`. -/
def indexOfFrom (text pat : List Char) (s : Nat) : Option Nat :=
  firstIdxFrom (fun i => matchesAt text pat i) s text.length

/-- One step plus recursion of the while-loop inside
`findNextParagraphBoundary` that looks for a single newline followed by
significant content; the `fuel` argument only bounds the number of
iterations (the scan index strictly increases, so `text.length + 1` steps
always suffice). -/
def newlineScanAux (text : List Char) : Nat → Nat → Option Nat
  | 0, _ => none
  | fuel + 1, s =>
    match indexOfFrom text ['\n'] s with
    | none => none
    | some pos =>
      if pos + 1 < text.length then
        match text[pos + 1]? with
        | some c => if isJsWhitespace c then newlineScanAux text fuel (pos + 1) else some (pos + 1)
        | none => none
      else none

/-- The single-newline while-loop of `findNextParagraphBoundary`
(`pos = text.indexOf('\n', ...)` scanning forward while the character after
the newline is whitespace). -/
def newlineScan (text : List Char) (s : Nat) : Option Nat :=
  newlineScanAux text (text.length + 1 - s) s

/-- A double newline starts at index `i` (specification wording: a
double-newline at or after the current position). -/
def isDoubleNewlineAt (text : List Char) (i : Nat) : Bool :=
  decide (text[i]? = some '\n') && decide (text[i + 1]? = some '\n')

/-- A single newline at `i` followed by a non-whitespace character
(specification wording for the second search rule). -/
def isNewlineBeforeNonWs (text : List Char) (i : Nat) : Bool :=
  decide (text[i]? = some '\n') &&
  (match text[i + 1]? with
   | some c => !isJsWhitespace c
   | none => false)

/-- Sentence-ending punctuation. -/
def isSentencePunct (c : Char) : Bool := c == '.' || c == '!' || c == '?'

/-- ASCII uppercase letter (the regexp class `[A-Z]`). -/
def isUpperAZ (c : Char) : Bool := 65 ≤ c.toNat && c.toNat ≤ 90

/-- The regexp `[.!?]\s+[A-Z]` matches at index `i`: punctuation at `i`, a
non-empty whitespace run, then an uppercase letter. -/
def sentenceMatchAt (text : List Char) (i : Nat) : Bool :=
  (match text[i]? with
   | some c => isSentencePunct c
   | none => false) &&
  ((List.range text.length).any (fun m =>
    decide (1 ≤ m) &&
    (List.range m).all (fun t =>
      match text[i + 1 + t]? with
      | some c => isJsWhitespace c
      | none => false) &&
    (match text[i + m + 1]? with
     | some c => isUpperAZ c
     | none => false)))

/-- Embedding of `sentenceRegex.exec` with `lastIndex = s`: leftmost match
of `[.!?]\s+[A-Z]` at or after `s`. -/
def sentenceSearch (text : List Char) (s : Nat) : Option Nat :=
  firstIdxFrom (fun i => sentenceMatchAt text i) s text.length

/-- Embedding of `InputProcessor.findNextParagraphBoundary` (part_003
lines 2524-2551): double newline, else single newline followed by
non-whitespace, else sentence boundary, else `none` (the source's `-1`). -/
def findNextParagraphBoundary (text : List Char) (startPos : Nat) : Option Nat :=
  match indexOfFrom text ['\n', '\n'] startPos with
  | some pos => some (pos + 2)
  | none =>
    match newlineScan text startPos with
    | some b => some b
    | none =>
      match sentenceSearch text startPos with
      | some idx => some (idx + 2)
      | none => none

/-- The paragraph-boundary search exactly as the specification words it:
first double-newline at or after the position (boundary = index after it);
else next single newline followed by a non-whitespace character (boundary =
index after that newline); else next sentence-ending punctuation followed by
whitespace and an uppercase letter (boundary = index after the punctuation
plus space); else none. -/
def specParagraphBoundary (text : List Char) (pos : Nat) : Option Nat :=
  match firstIdxFrom (isDoubleNewlineAt text) pos text.length with
  | some i => some (i + 2)
  | none =>
    match firstIdxFrom (isNewlineBeforeNonWs text) pos text.length with
    | some i => some (i + 1)
    | none =>
      match firstIdxFrom (fun i => sentenceMatchAt text i) pos text.length with
      | some i => some (i + 2)
      | none => none

/-- JS `' '`: the no-break space tested by `areCharactersEquivalent`. -/
def nbspChar : Char := ' '

/-- JS `'\r'`: carriage return. -/
def crChar : Char := '\u000D'

/-- Models `String.prototype.toLowerCase` applied to a single character at
code-point level: ASCII uppercase letters map to lowercase and U+212A
KELVIN SIGN maps to `k` (0x6B) — the only code point outside ASCII whose
JS lowercase is a single ASCII letter. All remaining code points are
modelled as fixed; that is faithful to the source's use, where the
lowercase comparison only decides acceptance when the other side of the
comparison is an ASCII letter (the `/[a-zA-Z]/.test(input)` guard), and no
other code point lowercases to a single ASCII letter. -/
def jsToLowerCode (c : Char) : Nat :=
  if 65 ≤ c.toNat ∧ c.toNat ≤ 90 then c.toNat + 32
  else if c.toNat = 0x212a then 0x6b
  else c.toNat

/-- The regexp test `/[a-zA-Z]/.test(c)` on a single character. -/
def isAsciiLetter (c : Char) : Bool :=
  (97 ≤ c.toNat && c.toNat ≤ 122) || (65 ≤ c.toNat && c.toNat ≤ 90)

/-- Embedding of `InputProcessor.areCharactersEquivalent` (part_003 lines
2322-2344): the four guarded early-return branches written as a
disjunction, in source order (space class, newline class, tab,
case-insensitive letters). -/
def areCharactersEquivalent (input expected : Char) : Bool :=
  ((input == ' ' || input == nbspChar) && (expected == ' ' || expected == nbspChar)) ||
  ((input == '\n' || input == crChar) && (expected == '\n' || expected == crChar)) ||
  (input == '\t' && expected == '\t') ||
  (decide (jsToLowerCode input = jsToLowerCode expected) && isAsciiLetter input)

/-- Embedding of `InputProcessor.validateCharacter` (part_003 lines
2302-2314): a falsy input or expected character (absent, or the empty
string) is rejected, then exact match, then the equivalence classes. -/
def validateCharacter (input expected : Option Char) : Bool :=
  match input, expected with
  | some i, some e => i == e || areCharactersEquivalent i e
  | _, _ => false

/-- Result object of `InputProcessor.processKeyInput`. -/
structure InputResult where
  success : Bool
  position : Nat
  inputChar : Option Char
  expectedChar : Option Char
deriving DecidableEq

/-- State owned by `InputProcessor` together with the slice of the
`TypingInterface` session it reads and writes: `content` is
`getSession().content.text` (`none` when no session), `errorsShown` the
per-unit error marks, `skippedLog` the positions pushed by
`markCharacterAsSkipped`, and `completionSignaled` records that
`handleTypingComplete` ran. -/
structure InputProcessorState where
  content : Option (List Char)
  currentPosition : Nat
  isProcessing : Bool
  errorsShown : List Nat
  skippedLog : List Nat
  completionSignaled : Bool
deriving DecidableEq

/-- Embedding of `InputProcessor.handleCorrectInput` (part_003 lines
2350-2373): advance the position, clear the error at the result position,
and signal completion when the end of a non-empty text is reached. It does
not touch the metrics calculator. -/
def handleCorrectInput (st : InputProcessorState) (text : List Char) : InputProcessorState :=
  { st with
    currentPosition := st.currentPosition + 1,
    errorsShown := st.errorsShown.erase st.currentPosition,
    completionSignaled := st.completionSignaled ||
      (decide (0 < text.length) && decide (text.length ≤ st.currentPosition + 1)) }

/-- Embedding of `InputProcessor.handleIncorrectInput` (part_003 lines
2379-2385): show the error at the current position, keep the position. It
does not touch the metrics calculator. -/
def handleIncorrectInput (st : InputProcessorState) : InputProcessorState :=
  { st with errorsShown := st.currentPosition :: st.errorsShown }

/-- Embedding of `InputProcessor.processKeyInput` (part_003 lines
2256-2294): reentrancy guard, session lookup, validation against
`content.text[currentPosition]`, then the correct/incorrect handler. -/
def processKeyInput (st : InputProcessorState) (inputChar : Option Char) :
    InputProcessorState × InputResult :=
  if st.isProcessing then
    (st, ⟨false, st.currentPosition, inputChar, none⟩)
  else
    match st.content with
    | none => (st, ⟨false, st.currentPosition, inputChar, none⟩)
    | some text =>
      let expectedChar := text[st.currentPosition]?
      let isValid := validateCharacter inputChar expectedChar
      let result : InputResult := ⟨isValid, st.currentPosition, inputChar, expectedChar⟩
      if isValid then (handleCorrectInput st text, result)
      else (handleIncorrectInput st, result)

/-- Embedding of `InputProcessor.skipCharacter` (part_003 lines 2452-2475):
no-op at or past the end, otherwise log the skip, advance one position and
recompute completion. -/
def skipCharacter (st : InputProcessorState) : InputProcessorState :=
  match st.content with
  | none => st
  | some text =>
    if text.length ≤ st.currentPosition then st
    else
      { st with
        skippedLog := st.skippedLog ++ [st.currentPosition],
        currentPosition := st.currentPosition + 1,
        completionSignaled := st.completionSignaled ||
          (decide (0 < text.length) && decide (text.length ≤ st.currentPosition + 1)) }

/-- Embedding of `InputProcessor.skipParagraph` (part_003 lines 2481-2516):
no-op at or past the end, otherwise find the next paragraph boundary
(falling back to the end of text), log a skip for every traversed offset in
order, move the position to the boundary and recompute completion. -/
def skipParagraph (st : InputProcessorState) : InputProcessorState :=
  match st.content with
  | none => st
  | some text =>
    if text.length ≤ st.currentPosition then st
    else
      let nextPosition := (findNextParagraphBoundary text st.currentPosition).getD text.length
      { st with
        skippedLog := st.skippedLog ++
          List.range' st.currentPosition (nextPosition - st.currentPosition),
        currentPosition := nextPosition,
        completionSignaled := st.completionSignaled ||
          (decide (0 < text.length) && decide (text.length ≤ nextPosition)) }

/-- Embedding of `InputProcessor.handleBackspace` (part_003 lines
2632-2645): only when the position is positive, retreat one position and
clear the error mark there. -/
def handleBackspace (st : InputProcessorState) : InputProcessorState :=
  if 0 < st.currentPosition then
    { st with
      currentPosition := st.currentPosition - 1,
      errorsShown := st.errorsShown.erase (st.currentPosition - 1) }
  else st

/-- The keyboard-driven operations of the Input Engine. -/
inductive InputOp where
  | keystroke (c : Option Char)
  | tab
  | shiftTab
  | backspace
deriving DecidableEq

/-- Dispatch of one keyboard event to the Input Engine handler it triggers. -/
def applyInputOp (st : InputProcessorState) : InputOp → InputProcessorState
  | InputOp.keystroke c => (processKeyInput st c).1
  | InputOp.tab => skipCharacter st
  | InputOp.shiftTab => skipParagraph st
  | InputOp.backspace => handleBackspace st

/-- The keystroke-acceptance relation exactly as the claim words it: exact
equality, or whitespace-class equivalence (space and no-break space
interchangeable, CR and LF interchangeable), or case-insensitive equality
restricted to ASCII letters. -/
def claimCharEquivalence (input expected : Char) : Prop :=
  input = expected ∨
  (input ∈ ([' ', nbspChar] : List Char) ∧ expected ∈ ([' ', nbspChar] : List Char)) ∨
  (input ∈ ([crChar, '\n'] : List Char) ∧ expected ∈ ([crChar, '\n'] : List Char)) ∨
  (isAsciiLetter input = true ∧ isAsciiLetter expected = true ∧
    jsToLowerCode input = jsToLowerCode expected)

/-- The acceptance relation as the counterexample forces it to be amended:
the case-insensitive clause restricts only the input character to be an
ASCII letter and compares the two characters after JS lowercasing, so an
expected character whose lowercase is an ASCII letter (U+212A KELVIN SIGN,
lowercasing to `k`) is also accepted. The other clauses are unchanged. -/
def amendedCharEquivalence (input expected : Char) : Prop :=
  input = expected ∨
  (input ∈ ([' ', nbspChar] : List Char) ∧ expected ∈ ([' ', nbspChar] : List Char)) ∨
  (input ∈ ([crChar, '\n'] : List Char) ∧ expected ∈ ([crChar, '\n'] : List Char)) ∨
  (isAsciiLetter input = true ∧ jsToLowerCode input = jsToLowerCode expected)

/-- The per-session record created by `MetricsCalculator.startSession`
(metrics-calculator.js lines 15-38). Timestamps are kept outside the model
(elapsed time enters `calculateWPM` as an explicit parameter); the cached
`currentWPM`/`currentAccuracy` fields are represented by the calculation
functions below, which is what the source recomputes from the counters on
every read. Skip entries keep the reason, position and count fields the
claims are about; keystroke history entries keep their correctness flag and
error entries their position. -/
structure MetricsSession where
  totalCharacters : Nat
  correctCharacters : Nat
  incorrectCharacters : Nat
  skippedCharacters : Nat
  totalKeystrokes : Nat
  correctKeystrokes : Nat
  incorrectKeystrokes : Nat
  skips : List (String × Nat × Nat)
  errors : List Nat
  keystrokeHistory : List Bool
deriving DecidableEq

/-- The zeroed session record `startSession` installs. -/
def freshMetricsSession : MetricsSession :=
  ⟨0, 0, 0, 0, 0, 0, 0, [], [], []⟩

/-- Embedding of the `MetricsCalculator` object: a nullable session and the
`isSessionActive` flag. -/
structure MetricsCalculator where
  session : Option MetricsSession
  isSessionActive : Bool
deriving DecidableEq

/-- The state after `new MetricsCalculator()`. -/
def initMetricsCalculator : MetricsCalculator := ⟨none, false⟩

/-- Embedding of `MetricsCalculator.startSession` (metrics-calculator.js
lines 15-38): unconditionally installs a fresh zeroed session and sets the
active flag; the source has no guard against an already-running session. -/
def MetricsCalculator.startSession (_m : MetricsCalculator) : MetricsCalculator :=
  ⟨some freshMetricsSession, true⟩

/-- Embedding of `MetricsCalculator.recordKeystroke` (metrics-calculator.js
lines 48-97): no-op without an active session; otherwise append to the
history, bump the keystroke counters, bump the correct or incorrect
character counter (logging an error entry on incorrect), and recompute
`totalCharacters`. -/
def MetricsCalculator.recordKeystroke (m : MetricsCalculator) (correct : Bool)
    (position : Nat) : MetricsCalculator :=
  if !m.isSessionActive then m
  else
    match m.session with
    | none => m
    | some s =>
      let s1 := { s with
        keystrokeHistory := s.keystrokeHistory ++ [correct],
        totalKeystrokes := s.totalKeystrokes + 1 }
      let s2 :=
        if correct then
          { s1 with
            correctKeystrokes := s1.correctKeystrokes + 1,
            correctCharacters := s1.correctCharacters + 1 }
        else
          { s1 with
            incorrectKeystrokes := s1.incorrectKeystrokes + 1,
            incorrectCharacters := s1.incorrectCharacters + 1,
            errors := s1.errors ++ [position] }
      let s3 := { s2 with totalCharacters := s2.correctCharacters + s2.incorrectCharacters }
      { m with session := some s3 }

/-- Embedding of `MetricsCalculator.recordSkip` (metrics-calculator.js
lines 107-134): no-op without an active session; otherwise log the skip
entry and add its count to `skippedCharacters`. -/
def MetricsCalculator.recordSkip (m : MetricsCalculator) (reason : String)
    (position : Nat) (count : Nat) : MetricsCalculator :=
  if !m.isSessionActive then m
  else
    match m.session with
    | none => m
    | some s =>
      let s2 := { s with
        skips := s.skips ++ [(reason, position, count)],
        skippedCharacters := s.skippedCharacters + count }
      { m with session := some s2 }

/-- Embedding of `MetricsCalculator.calculateAccuracy` (metrics-calculator.js
lines 169-186): 100 without an active session or with no typed characters,
otherwise correct over typed characters as a percentage rounded to two
decimal places. -/
def calculateAccuracy (m : MetricsCalculator) : ℚ :=
  if !m.isSessionActive then 100
  else
    match m.session with
    | none => 100
    | some s =>
      let totalTypedCharacters := s.correctCharacters + s.incorrectCharacters
      if totalTypedCharacters = 0 then 100
      else jsRound2 ((s.correctCharacters : ℚ) / (totalTypedCharacters : ℚ) * 100)

/-- Embedding of `MetricsCalculator.calculateWPM` (metrics-calculator.js
lines 141-161): 0 without an active session, 0 when no positive time has
elapsed, otherwise correct characters over five per elapsed minute,
rounded. The elapsed wall-clock milliseconds (`new Date() - startTime`)
enter as the explicit parameter `elapsedMs`. -/
def calculateWPM (m : MetricsCalculator) (elapsedMs : ℚ) : ℤ :=
  if !m.isSessionActive then 0
  else
    match m.session with
    | none => 0
    | some s =>
      let timeElapsedMinutes := elapsedMs / (1000 * 60)
      if timeElapsedMinutes ≤ 0 then 0
      else jsRound ((s.correctCharacters : ℚ) / 5 / timeElapsedMinutes)

/-- The operations a running session may issue against the Metrics Engine. -/
inductive MetricsOp where
  | keystroke (correct : Bool) (position : Nat)
  | skip (reason : String) (position : Nat) (count : Nat)
deriving DecidableEq

/-- Dispatch one recorded event to the calculator. -/
def applyMetricsOp (m : MetricsCalculator) : MetricsOp → MetricsCalculator
  | MetricsOp.keystroke c p => m.recordKeystroke c p
  | MetricsOp.skip r p k => m.recordSkip r p k

/-- Run a sequence of record operations from a freshly started session. -/
def runMetrics (ops : List MetricsOp) : MetricsCalculator :=
  ops.foldl applyMetricsOp (MetricsCalculator.startSession initMetricsCalculator)

/-- The typed subsequence of an operation sequence: the correctness flags
of its keystrokes, skips removed. -/
def typedSeq (ops : List MetricsOp) : List Bool :=
  ops.filterMap (fun op =>
    match op with
    | MetricsOp.keystroke c _ => some c
    | MetricsOp.skip _ _ _ => none)

/-- Total number of characters skipped by an operation sequence. -/
def skipSum (ops : List MetricsOp) : Nat :=
  (ops.map (fun op =>
    match op with
    | MetricsOp.keystroke _ _ => 0
    | MetricsOp.skip _ _ k => k)).sum

/-- The slice of `TypingSession` state (part_006 lines 5-36) that
`initialize` reads and writes: identity, the activity flag, the
re-entrancy lock, and flags recording that the owned components
(metrics calculator, typing interface, input processor, hints UI) have
been constructed. -/
structure TypingSessionState where
  id : Nat
  isActive : Bool
  sessionLock : Bool
  metricsStarted : Bool
  componentsReady : Bool
deriving DecidableEq

/-- The page-wide shared state that `hasActiveSessionOnPage` (part_006
lines 684-715) inspects: presence of the overlay element and hints panel,
the global registry `window.typingPracticeActiveSession` (modelled by the
registered session's id), and any other visible typing-practice elements. -/
structure PageState where
  overlayPresent : Bool
  hintsPanelPresent : Bool
  activeSessionId : Option Nat
  typingElementsVisible : Bool
deriving DecidableEq

/-- Embedding of `TypingSession.hasActiveSessionOnPage` (part_006 lines
684-715): overlay present, or hints panel present, or the global registry
holds a session other than this one, or stray visible typing elements. -/
def hasActiveSessionOnPage (page : PageState) (selfId : Nat) : Bool :=
  page.overlayPresent || page.hintsPanelPresent ||
  (match page.activeSessionId with
   | some i => decide (i ≠ selfId)
   | none => false) ||
  page.typingElementsVisible

/-- Embedding of `TypingSession.initialize` (part_006 lines 45-128): the
local lock/active guard, then the page-wide check, both rejecting with
`false` before any state is touched; on success the components are
constructed, the session becomes active, and `registerGlobalSession`
claims the page-wide registry (the overlay and hints panel it creates
become present on the page). -/
def TypingSession.initialize (s : TypingSessionState) (page : PageState) :
    Bool × TypingSessionState × PageState :=
  if s.sessionLock || s.isActive then (false, s, page)
  else if hasActiveSessionOnPage page s.id then (false, s, page)
  else
    (true,
     { s with isActive := true, sessionLock := false,
              metricsStarted := true, componentsReady := true },
     { page with overlayPresent := true, hintsPanelPresent := true,
                 activeSessionId := some s.id })

/-- The selection-like input `TextSelectionHandler.validateSelection`
(part_003 lines 48-101) examines: the range count, the selected text
(`selection.toString()`), presence of the range / common ancestor
container / parent element, and whether that parent sits inside an
editable element (`isWithinEditableElement`, part_003 lines 359-385). -/
structure JsSelection where
  rangeCount : Nat
  text : List Char
  hasRange : Bool
  hasContainer : Bool
  hasParentElement : Bool
  withinEditable : Bool
deriving DecidableEq

/-- Embedding of `TextSelectionHandler.validateSelection` (part_003 lines
48-101), in source check order. -/
def validateSelection (sel : JsSelection) : Bool :=
  if sel.rangeCount = 0 then false
  else if (jsTrim sel.text).length < 3 then false
  else if !((jsTrim sel.text).any (fun c => !isJsWhitespace c)) then false
  else if 10000 < (jsTrim sel.text).length then false
  else if !sel.hasRange then false
  else if !sel.hasContainer then false
  else if !sel.hasParentElement then false
  else if sel.withinEditable then false
  else true

/-- Embedding of `TextSelectionHandler.captureSelection` (part_003 lines
22-41): `null` on a failed validation, otherwise the selected-text object
(modelled by its `content` field, `selection.toString()`). -/
def captureSelection (sel : JsSelection) : Option (List Char) :=
  if validateSelection sel then some sel.text else none

/-- The pair of engine components a running `TypingSession` owns that
keystrokes can reach: the input processor and the metrics calculator
created by `initialize` (part_006 lines 76-85). -/
structure SessionEngineState where
  inputProcessor : InputProcessorState
  metricsCalculator : MetricsCalculator
deriving DecidableEq

/-- One keystroke during an active session: the content script routes the
keypress to `InputProcessor.processKeyInput`. Neither `handleCorrectInput`
nor `handleIncorrectInput` (part_003 lines 2350-2385) calls
`MetricsCalculator.recordKeystroke` — the only callers of that method in
the repository are the unit tests — so the metrics calculator's state is
unchanged by the keystroke. -/
def sessionKeystroke (st : SessionEngineState) (c : Option Char) : SessionEngineState :=
  { st with inputProcessor := (processKeyInput st.inputProcessor c).1 }

/-- The engine state right after `TypingSession.initialize` has created
the components for the given practice text (part_006 lines 76-85): input
processor at position 0 with no marks, metrics calculator freshly
started. -/
def initialEngineState (text : List Char) : SessionEngineState :=
  { inputProcessor :=
      { content := some text, currentPosition := 0, isProcessing := false,
        errorsShown := [], skippedLog := [], completionSignaled := false },
    metricsCalculator := MetricsCalculator.startSession initMetricsCalculator }

/-- Concrete instance of C2: interleaving two skips among one correct and
one incorrect keystroke leaves accuracy identical to the skip-free run. -/
def wOpsA : List MetricsOp :=
  [MetricsOp.skip "shortcut" 0 1, MetricsOp.keystroke true 0,
   MetricsOp.skip "shortcut" 2 1, MetricsOp.keystroke false 3]

/-- The skip-free typed sequence of `wOpsA`. -/
def wOpsB : List MetricsOp :=
  [MetricsOp.keystroke true 0, MetricsOp.keystroke false 3]

/-- A running session with 25 correct characters, used by witnesses. -/
def wSession25 : MetricsSession := { freshMetricsSession with correctCharacters := 25 }

/-- A running metrics calculator holding `wSession25`. -/
def wMetrics : MetricsCalculator := ⟨some wSession25, true⟩

/-- The engine state after typing c, x, a, t against content "cat" in a
fresh session (the claim's Scenario B input). -/
def scenarioBFinal : SessionEngineState :=
  ([some 'c', some 'x', some 'a', some 't']).foldl sessionKeystroke
    (initialEngineState "cat".toList)

/-- A page whose registry holds session 1 but with no stray DOM markers. -/
def wPage : PageState := ⟨false, false, some 1, false⟩

/-- A second, locally clean session object. -/
def wSession2 : TypingSessionState := ⟨2, false, false, false, false⟩

/-- A concrete valid selection. -/
def wSelection : JsSelection := ⟨1, "hello".toList, true, true, true, false⟩

/-- The input-engine state at the end of content "cat". -/
def wEndState : InputProcessorState :=
  ⟨some ("cat".toList), 3, false, [], [], true⟩

/-- A concrete two-character session state for the C3 witness. -/
def wSkipState : InputProcessorState :=
  ⟨some ("ab".toList), 0, false, [], [], false⟩

/-- The Scenario C state: content "a\n\nb" with the cursor at 0. -/
def scenarioCState : InputProcessorState :=
  ⟨some ("a\n\nb".toList), 0, false, [], [], false⟩

theorem firstIdxAux_eq_some {p : Nat → Bool} :
    ∀ {fuel s i : Nat}, firstIdxAux p fuel s = some i ↔
      s ≤ i ∧ i < s + fuel ∧ p i = true ∧ ∀ j, s ≤ j → j < i → p j = false := by
  intro fuel
  induction fuel with
  | zero => intro s i; simp [firstIdxAux]; omega
  | succ n ih =>
    intro s i
    simp only [firstIdxAux]
    by_cases hp : p s
    · simp only [hp, if_true]
      constructor
      · rintro h
        cases h
        exact ⟨le_refl _, by omega, hp, fun j h1 h2 => absurd (lt_of_le_of_lt h1 h2) (lt_irrefl _)⟩
      · rintro ⟨h1, _, h3, h4⟩
        rcases Nat.eq_or_lt_of_le h1 with h | h
        · rw [h]
        · exact absurd (h4 s (le_refl _) h) (by simp [hp])
    · simp only [hp, Bool.false_eq_true, if_false]
      rw [ih]
      constructor
      · rintro ⟨h1, h2, h3, h4⟩
        refine ⟨by omega, by omega, h3, fun j hj1 hj2 => ?_⟩
        rcases Nat.eq_or_lt_of_le hj1 with h | h
        · rw [← h]; simpa using hp
        · exact h4 j h hj2
      · rintro ⟨h1, h2, h3, h4⟩
        have hsi : s ≠ i := by
          rintro rfl; simp [hp] at h3
        exact ⟨by omega, by omega, h3, fun j hj1 hj2 => h4 j (by omega) hj2⟩

theorem firstIdxAux_eq_none {p : Nat → Bool} :
    ∀ {fuel s : Nat}, firstIdxAux p fuel s = none ↔
      ∀ j, s ≤ j → j < s + fuel → p j = false := by
  intro fuel
  induction fuel with
  | zero => intro s; simp [firstIdxAux]; omega
  | succ n ih =>
    intro s
    simp only [firstIdxAux]
    by_cases hp : p s
    · simp only [hp, if_true]
      constructor
      · intro h; cases h
      · intro h; have := h s (le_refl _) (by omega); simp [hp] at this
    · simp only [hp, Bool.false_eq_true, if_false]
      rw [ih]
      constructor
      · intro h j hj1 hj2
        rcases Nat.eq_or_lt_of_le hj1 with hh | hh
        · rw [← hh]; simpa using hp
        · exact h j hh (by omega)
      · intro h j hj1 hj2
        exact h j (by omega) (by omega)

theorem firstIdxFrom_eq_some {p : Nat → Bool} {s b i : Nat} :
    firstIdxFrom p s b = some i ↔
      s ≤ i ∧ i < b ∧ p i = true ∧ ∀ j, s ≤ j → j < i → p j = false := by
  unfold firstIdxFrom
  rw [firstIdxAux_eq_some]
  constructor
  · rintro ⟨h1, h2, h3, h4⟩
    exact ⟨h1, by omega, h3, h4⟩
  · rintro ⟨h1, h2, h3, h4⟩
    exact ⟨h1, by omega, h3, h4⟩

theorem firstIdxFrom_eq_none {p : Nat → Bool} {s b : Nat} :
    firstIdxFrom p s b = none ↔ ∀ j, s ≤ j → j < b → p j = false := by
  unfold firstIdxFrom
  rw [firstIdxAux_eq_none]
  constructor
  · intro h j hj1 hj2; exact h j hj1 (by omega)
  · intro h j hj1 hj2; exact h j hj1 (by omega)

theorem firstIdxFrom_congr {p q : Nat → Bool} (h : ∀ i, p i = q i) (s b : Nat) :
    firstIdxFrom p s b = firstIdxFrom q s b := by
  have : p = q := funext h
  rw [this]

/-- If `p` is false on `[s, t)` then starting the scan at `s` or at `t`
gives the same result. -/
theorem firstIdxFrom_skip {p : Nat → Bool} {s t b : Nat} (hst : s ≤ t)
    (h : ∀ j, s ≤ j → j < t → p j = false) :
    firstIdxFrom p s b = firstIdxFrom p t b := by
  cases h2 : firstIdxFrom p t b with
  | none =>
    rw [firstIdxFrom_eq_none] at h2 ⊢
    intro j hj1 hj2
    rcases Nat.lt_or_ge j t with hh | hh
    · exact h j hj1 hh
    · exact h2 j hh hj2
  | some i =>
    rw [firstIdxFrom_eq_some] at h2 ⊢
    obtain ⟨ht, hb, hp, hmin⟩ := h2
    refine ⟨le_trans hst ht, hb, hp, fun j hj hji => ?_⟩
    rcases Nat.lt_or_ge j t with hh | hh
    · exact h j hj hh
    · exact hmin j hh hji

theorem matchesAt_single (text : List Char) (c : Char) (i : Nat) :
    matchesAt text [c] i = decide (text[i]? = some c) := by
  simp [matchesAt]

theorem indexOf_single_eq_some {text : List Char} {c : Char} {s pos : Nat} :
    indexOfFrom text [c] s = some pos ↔
      s ≤ pos ∧ pos < text.length ∧ text[pos]? = some c ∧
      ∀ j, s ≤ j → j < pos → ¬(text[j]? = some c) := by
  unfold indexOfFrom
  rw [firstIdxFrom_eq_some]
  simp [matchesAt_single]

theorem indexOf_single_eq_none {text : List Char} {c : Char} {s : Nat} :
    indexOfFrom text [c] s = none ↔
      ∀ j, s ≤ j → j < text.length → ¬(text[j]? = some c) := by
  unfold indexOfFrom
  rw [firstIdxFrom_eq_none]
  simp [matchesAt_single]

theorem indexOf_nl2 (text : List Char) (s : Nat) :
    indexOfFrom text ['\n', '\n'] s = firstIdxFrom (isDoubleNewlineAt text) s text.length := by
  unfold indexOfFrom
  apply firstIdxFrom_congr
  intro i
  simp [matchesAt, isDoubleNewlineAt]

theorem newlineScanAux_spec (text : List Char) :
    ∀ (fuel s : Nat), text.length + 1 ≤ fuel + s →
      newlineScanAux text fuel s =
        (firstIdxFrom (isNewlineBeforeNonWs text) s text.length).map (fun i => i + 1) := by
  intro fuel
  induction fuel with
  | zero =>
    intro s hs
    have h : firstIdxFrom (isNewlineBeforeNonWs text) s text.length = none := by
      rw [firstIdxFrom_eq_none]; intro j hj1 hj2; omega
    rw [h]; rfl
  | succ n ih =>
    intro s hs
    rw [newlineScanAux]
    cases h : indexOfFrom text ['\n'] s with
    | none =>
      rw [indexOf_single_eq_none] at h
      have hnone : firstIdxFrom (isNewlineBeforeNonWs text) s text.length = none := by
        rw [firstIdxFrom_eq_none]
        intro j hj1 hj2
        have := h j hj1 hj2
        simp [isNewlineBeforeNonWs, this]
      rw [hnone]; rfl
    | some pos =>
      rw [indexOf_single_eq_some] at h
      obtain ⟨hspos, hposlen, hnl, hmin⟩ := h
      dsimp only
      by_cases hlt : pos + 1 < text.length
      · have hc : text[pos + 1]? = some text[pos + 1] := List.getElem?_eq_getElem hlt
        rw [if_pos hlt, hc]
        dsimp only
        by_cases hws : isJsWhitespace text[pos + 1]
        · rw [if_pos hws]
          rw [ih (pos + 1) (by omega)]
          have hshift : firstIdxFrom (isNewlineBeforeNonWs text) s text.length =
              firstIdxFrom (isNewlineBeforeNonWs text) (pos + 1) text.length := by
            apply firstIdxFrom_skip (by omega)
            intro j hj1 hj2
            rcases Nat.lt_or_ge j pos with hh | hh
            · have := hmin j hj1 hh
              simp [isNewlineBeforeNonWs, this]
            · have hj : j = pos := by omega
              subst hj
              simp [isNewlineBeforeNonWs, hc, hws]
          rw [hshift]
        · rw [if_neg hws]
          have hfound : firstIdxFrom (isNewlineBeforeNonWs text) s text.length = some pos := by
            rw [firstIdxFrom_eq_some]
            refine ⟨hspos, hposlen, ?_, ?_⟩
            · simp [isNewlineBeforeNonWs, hnl, hc, hws]
            · intro j hj1 hj2
              have := hmin j hj1 hj2
              simp [isNewlineBeforeNonWs, this]
          rw [hfound]; rfl
      · rw [if_neg hlt]
        have hnone : firstIdxFrom (isNewlineBeforeNonWs text) s text.length = none := by
          rw [firstIdxFrom_eq_none]
          intro j hj1 hj2
          rcases Nat.lt_or_ge j pos with hh | hh
          · have := hmin j hj1 hh
            simp [isNewlineBeforeNonWs, this]
          · have hj : j = pos := by omega
            subst hj
            have : text[j + 1]? = none := by
              rw [List.getElem?_eq_none_iff]; omega
            simp [isNewlineBeforeNonWs, this]
        rw [hnone]; rfl

theorem newlineScan_spec (text : List Char) (s : Nat) :
    newlineScan text s =
      (firstIdxFrom (isNewlineBeforeNonWs text) s text.length).map (fun i => i + 1) :=
  newlineScanAux_spec text (text.length + 1 - s) s (by omega)

/-- The source's paragraph-boundary search computes exactly the
specification's prioritized search. -/
theorem paragraphBoundary_refines (text : List Char) (s : Nat) :
    findNextParagraphBoundary text s = specParagraphBoundary text s := by
  unfold findNextParagraphBoundary specParagraphBoundary sentenceSearch
  rw [indexOf_nl2, newlineScan_spec]
  cases firstIdxFrom (isDoubleNewlineAt text) s text.length with
  | some i => rfl
  | none =>
    cases firstIdxFrom (isNewlineBeforeNonWs text) s text.length with
    | some i => rfl
    | none => rfl

/-- Any boundary the search returns lies strictly beyond the start position
and inside the text. -/
theorem paragraphBoundary_bounds {text : List Char} {s b : Nat}
    (h : findNextParagraphBoundary text s = some b) : s < b ∧ b ≤ text.length := by
  unfold findNextParagraphBoundary at h
  cases h1 : indexOfFrom text ['\n', '\n'] s with
  | some pos =>
    rw [h1] at h
    dsimp only at h
    have hb := Option.some.inj h
    unfold indexOfFrom at h1
    rw [firstIdxFrom_eq_some] at h1
    obtain ⟨hsp, hpl, hm, _⟩ := h1
    simp only [matchesAt, Bool.and_true, Bool.and_eq_true, decide_eq_true_eq] at hm
    obtain ⟨hm1, hm2⟩ := hm
    obtain ⟨hlt, _⟩ := List.getElem?_eq_some_iff.mp hm2
    omega
  | none =>
    rw [h1] at h
    dsimp only at h
    cases h2 : newlineScan text s with
    | some b2 =>
      rw [h2] at h
      dsimp only at h
      have hb := Option.some.inj h
      rw [newlineScan_spec] at h2
      rw [Option.map_eq_some'] at h2
      obtain ⟨i, hfi, hib⟩ := h2
      rw [firstIdxFrom_eq_some] at hfi
      obtain ⟨hsi, hil, hP, _⟩ := hfi
      simp only [isNewlineBeforeNonWs, Bool.and_eq_true, decide_eq_true_eq] at hP
      obtain ⟨hP1, hP2⟩ := hP
      cases hc : text[i + 1]? with
      | none => rw [hc] at hP2; cases hP2
      | some c =>
        obtain ⟨hlt, _⟩ := List.getElem?_eq_some_iff.mp hc
        omega
    | none =>
      rw [h2] at h
      dsimp only at h
      cases h3 : sentenceSearch text s with
      | some i =>
        rw [h3] at h
        dsimp only at h
        have hb := Option.some.inj h
        unfold sentenceSearch at h3
        rw [firstIdxFrom_eq_some] at h3
        obtain ⟨hsi, hil, hsm, _⟩ := h3
        simp only [sentenceMatchAt, Bool.and_eq_true, List.any_eq_true, List.mem_range,
          decide_eq_true_eq] at hsm
        obtain ⟨-, m, hmlt, ⟨hm1, -⟩, hup⟩ := hsm
        cases hc : text[i + m + 1]? with
        | none => simp [hc] at hup
        | some c =>
          obtain ⟨hlt, _⟩ := List.getElem?_eq_some_iff.mp hc
          omega
      | none =>
        rw [h3] at h
        cases h

theorem recordKeystroke_counts (m : MetricsCalculator) (s : MetricsSession)
    (h : m.session = some s) (ha : m.isSessionActive = true) (c : Bool) (p : Nat) :
    ∃ s2, (m.recordKeystroke c p).session = some s2 ∧
      (m.recordKeystroke c p).isSessionActive = true ∧
      s2.correctCharacters = s.correctCharacters + (if c then 1 else 0) ∧
      s2.incorrectCharacters = s.incorrectCharacters + (if c then 0 else 1) ∧
      s2.skippedCharacters = s.skippedCharacters := by
  obtain ⟨sess, act⟩ := m
  simp only at h ha
  subst h; subst ha
  cases c <;>
    exact ⟨_, rfl, rfl, by simp [MetricsCalculator.recordKeystroke],
      by simp [MetricsCalculator.recordKeystroke], by simp [MetricsCalculator.recordKeystroke]⟩

theorem recordSkip_counts (m : MetricsCalculator) (s : MetricsSession)
    (h : m.session = some s) (ha : m.isSessionActive = true) (r : String) (p k : Nat) :
    ∃ s2, (m.recordSkip r p k).session = some s2 ∧
      (m.recordSkip r p k).isSessionActive = true ∧
      s2.correctCharacters = s.correctCharacters ∧
      s2.incorrectCharacters = s.incorrectCharacters ∧
      s2.skippedCharacters = s.skippedCharacters + k := by
  obtain ⟨sess, act⟩ := m
  simp only at h ha
  subst h; subst ha
  exact ⟨_, rfl, rfl, by simp [MetricsCalculator.recordSkip],
    by simp [MetricsCalculator.recordSkip], by simp [MetricsCalculator.recordSkip]⟩

theorem foldl_metrics_counts (ops : List MetricsOp) :
    ∀ (m : MetricsCalculator) (s : MetricsSession),
      m.session = some s → m.isSessionActive = true →
      ∃ s2, (ops.foldl applyMetricsOp m).session = some s2 ∧
        (ops.foldl applyMetricsOp m).isSessionActive = true ∧
        s2.correctCharacters = s.correctCharacters + (typedSeq ops).count true ∧
        s2.incorrectCharacters = s.incorrectCharacters + (typedSeq ops).count false ∧
        s2.skippedCharacters = s.skippedCharacters + skipSum ops := by
  induction ops with
  | nil =>
    intro m s h ha
    exact ⟨s, h, ha, by simp [typedSeq], by simp [typedSeq], by simp [skipSum]⟩
  | cons op rest ih =>
    intro m s h ha
    rw [List.foldl_cons]
    cases op with
    | keystroke c p =>
      obtain ⟨s1, h1, ha1, hc1, hi1, hs1⟩ := recordKeystroke_counts m s h ha c p
      obtain ⟨s2, h2, ha2, hc2, hi2, hs2⟩ := ih (m.recordKeystroke c p) s1 h1 ha1
      refine ⟨s2, h2, ha2, ?_, ?_, ?_⟩
      · rw [hc2, hc1]
        have : typedSeq (MetricsOp.keystroke c p :: rest) = c :: typedSeq rest := by
          simp [typedSeq]
        rw [this, List.count_cons]
        cases c <;> simp <;> omega
      · rw [hi2, hi1]
        have : typedSeq (MetricsOp.keystroke c p :: rest) = c :: typedSeq rest := by
          simp [typedSeq]
        rw [this, List.count_cons]
        cases c <;> simp <;> omega
      · rw [hs2, hs1]
        have : skipSum (MetricsOp.keystroke c p :: rest) = skipSum rest := by
          simp [skipSum]
        omega
    | skip r p k =>
      obtain ⟨s1, h1, ha1, hc1, hi1, hs1⟩ := recordSkip_counts m s h ha r p k
      obtain ⟨s2, h2, ha2, hc2, hi2, hs2⟩ := ih (m.recordSkip r p k) s1 h1 ha1
      refine ⟨s2, h2, ha2, ?_, ?_, ?_⟩
      · rw [hc2, hc1]
        have : typedSeq (MetricsOp.skip r p k :: rest) = typedSeq rest := by
          simp [typedSeq]
        rw [this]
      · rw [hi2, hi1]
        have : typedSeq (MetricsOp.skip r p k :: rest) = typedSeq rest := by
          simp [typedSeq]
        rw [this]
      · rw [hs2, hs1]
        have : skipSum (MetricsOp.skip r p k :: rest) = k + skipSum rest := by
          simp [skipSum]
        omega

theorem count_true_add_count_false (l : List Bool) :
    l.count true + l.count false = l.length := by
  induction l with
  | nil => simp
  | cons b t ih =>
    cases b <;> simp [List.count_cons] <;> omega

theorem runMetrics_counts (ops : List MetricsOp) :
    ∃ s2, (runMetrics ops).session = some s2 ∧
      (runMetrics ops).isSessionActive = true ∧
      s2.correctCharacters = (typedSeq ops).count true ∧
      s2.incorrectCharacters = (typedSeq ops).count false ∧
      s2.skippedCharacters = skipSum ops := by
  obtain ⟨s2, h1, h2, h3, h4, h5⟩ :=
    foldl_metrics_counts ops (MetricsCalculator.startSession initMetricsCalculator)
      freshMetricsSession rfl rfl
  exact ⟨s2, h1, h2, by simpa [freshMetricsSession] using h3,
    by simpa [freshMetricsSession] using h4, by simpa [freshMetricsSession] using h5⟩

theorem accuracy_formula (ops : List MetricsOp) :
    calculateAccuracy (runMetrics ops) =
      if (typedSeq ops).length = 0 then (100 : ℚ)
      else jsRound2 (((typedSeq ops).count true : ℚ) / ((typedSeq ops).length : ℚ) * 100) := by
  obtain ⟨s2, h1, h2, h3, h4, h5⟩ := runMetrics_counts ops
  unfold calculateAccuracy
  rw [h2, h1]
  have hlen : s2.correctCharacters + s2.incorrectCharacters = (typedSeq ops).length := by
    rw [h3, h4]; exact count_true_add_count_false _
  simp only [Bool.not_true, Bool.false_eq_true, if_false]
  rw [hlen, h3]

/-- C2: in a running metrics session accuracy is
round(correct / (correct + incorrect) * 100) to two decimals, is 100 when
nothing has been typed, and depends only on the typed subsequence: skips do
not change it (they only grow `skippedCharacters` by their counts). -/
theorem claim2_accuracy_formula_skip_invariant (ops ops1 ops2 : List MetricsOp) :
    (calculateAccuracy (runMetrics ops) =
      if (typedSeq ops).length = 0 then (100 : ℚ)
      else jsRound2 (((typedSeq ops).count true : ℚ) / ((typedSeq ops).length : ℚ) * 100)) ∧
    (typedSeq ops1 = typedSeq ops2 →
      calculateAccuracy (runMetrics ops1) = calculateAccuracy (runMetrics ops2)) ∧
    (∃ s, (runMetrics ops).session = some s ∧ s.skippedCharacters = skipSum ops) := by
  refine ⟨accuracy_formula ops, ?_, ?_⟩
  · intro h
    rw [accuracy_formula ops1, accuracy_formula ops2, h]
  · obtain ⟨s2, h1, _, _, _, h5⟩ := runMetrics_counts ops
    exact ⟨s2, h1, h5⟩

/-- Witness for C2 at a concrete operation sequence. -/
theorem claim2_witness :
    typedSeq wOpsA = typedSeq wOpsB ∧
    calculateAccuracy (runMetrics wOpsA) = calculateAccuracy (runMetrics wOpsB) :=
  ⟨by decide, (claim2_accuracy_formula_skip_invariant wOpsA wOpsA wOpsB).2.1 (by decide)⟩

/-- C7: WPM is round((correct/5)/elapsedMinutes) in a running session with
positive elapsed time, is 0 whenever elapsed time is nonpositive or no
correct characters were typed, and is never negative. -/
theorem claim7_wpm_zero_floor (m : MetricsCalculator) (elapsedMs : ℚ) :
    0 ≤ calculateWPM m elapsedMs ∧
    (elapsedMs ≤ 0 → calculateWPM m elapsedMs = 0) ∧
    (∀ s, m.session = some s → s.correctCharacters = 0 → calculateWPM m elapsedMs = 0) ∧
    (m.isSessionActive = true → ∀ s, m.session = some s → 0 < elapsedMs →
      calculateWPM m elapsedMs =
        jsRound ((s.correctCharacters : ℚ) / 5 / (elapsedMs / (1000 * 60)))) := by
  obtain ⟨sess, act⟩ := m
  cases act with
  | false =>
    refine ⟨by simp [calculateWPM], fun _ => by simp [calculateWPM],
      fun s h _ => by simp [calculateWPM], fun h => ?_⟩
    simp at h
  | true =>
    cases sess with
    | none =>
      refine ⟨by simp [calculateWPM], fun _ => by simp [calculateWPM],
        fun s h _ => ?_, fun _ s h _ => ?_⟩
      · exact absurd h (by simp)
      · exact absurd h (by simp)
    | some s =>
      by_cases hmin : elapsedMs / (1000 * 60) ≤ 0
      · have hw : calculateWPM ⟨some s, true⟩ elapsedMs = 0 := by
          unfold calculateWPM
          dsimp only
          rw [if_pos hmin]
          simp
        refine ⟨by rw [hw], fun _ => hw, fun _ _ _ => hw, fun _ s2 hsome hpos => ?_⟩
        exfalso
        have h1 : (0 : ℚ) < elapsedMs / (1000 * 60) := by positivity
        linarith
      · push_neg at hmin
        have hw : calculateWPM ⟨some s, true⟩ elapsedMs =
            jsRound ((s.correctCharacters : ℚ) / 5 / (elapsedMs / (1000 * 60))) := by
          unfold calculateWPM
          dsimp only
          rw [if_neg (not_le.mpr hmin)]
          simp
        have hq : (0 : ℚ) ≤ (s.correctCharacters : ℚ) / 5 / (elapsedMs / (1000 * 60)) := by
          apply div_nonneg
          · positivity
          · exact le_of_lt hmin
        refine ⟨?_, ?_, ?_, ?_⟩
        · rw [hw]
          unfold jsRound
          rw [Int.le_floor]
          push_cast
          linarith
        · intro he
          exfalso
          have : elapsedMs / (1000 * 60) ≤ 0 :=
            div_nonpos_of_nonpos_of_nonneg he (by norm_num)
          linarith
        · intro s2 hsome hc
          obtain rfl : s = s2 := Option.some.inj hsome
          rw [hw, hc]
          norm_num [jsRound]
        · intro _ s2 hsome _
          obtain rfl : s = s2 := Option.some.inj hsome
          exact hw

/-- Witness for C7: at 25 correct characters and one elapsed minute the WPM
formula applies (value 5). -/
theorem claim7_witness :
    wMetrics.isSessionActive = true ∧ wMetrics.session = some wSession25 ∧
    (0 : ℚ) < 60000 ∧
    calculateWPM wMetrics 60000 =
      jsRound ((wSession25.correctCharacters : ℚ) / 5 / (60000 / (1000 * 60))) :=
  ⟨rfl, rfl, by norm_num,
    (claim7_wpm_zero_floor wMetrics 60000).2.2.2 rfl wSession25 rfl (by norm_num)⟩

/-- C8 counterexample: starting a session, recording one correct keystroke
(counter 1, history one entry), then calling `startSession` again while the
session is still running does not fail — it succeeds and installs a fresh
session whose counters and history are zeroed, contradicting the claim that
the call is rejected and the running counters kept. -/
theorem claim8_counterexample :
    ((initMetricsCalculator.startSession).recordKeystroke true 0).isSessionActive = true ∧
    (∃ s, ((initMetricsCalculator.startSession).recordKeystroke true 0).session = some s ∧
      s.correctCharacters = 1 ∧ s.keystrokeHistory = [true]) ∧
    (((initMetricsCalculator.startSession).recordKeystroke true 0).startSession).isSessionActive
      = true ∧
    (((initMetricsCalculator.startSession).recordKeystroke true 0).startSession).session =
      some freshMetricsSession :=
  ⟨rfl, ⟨_, rfl, rfl, rfl⟩, rfl, rfl⟩

/-- C8 (amended): calling `startSession()` while a session is already
running is not rejected — the source has no guard — and it silently
replaces the running session with a fresh one, discarding the previous
counters and history. -/
theorem claim8_start_session_overwrites (m : MetricsCalculator)
    (h : m.isSessionActive = true) :
    (m.startSession).isSessionActive = true ∧
    (m.startSession).session = some freshMetricsSession :=
  ⟨rfl, rfl⟩

/-- Witness for C8 at a concrete running calculator. -/
theorem claim8_witness :
    wMetrics.isSessionActive = true ∧
    ((wMetrics.startSession).isSessionActive = true ∧
     (wMetrics.startSession).session = some freshMetricsSession) :=
  ⟨rfl, claim8_start_session_overwrites wMetrics rfl⟩

/-- C1 evaluated at the failing input: typing c, x, a, t against "cat"
advances the input processor to position 3 and signals completion, but the
metrics calculator still holds the untouched fresh session — correct and
incorrect counters 0 and accuracy 100, not the claimed 3, 1 and 75 — because
the input handlers never call `recordKeystroke`. -/
theorem claim1_keystrokes_never_reach_metrics :
    scenarioBFinal.inputProcessor.currentPosition = 3 ∧
    scenarioBFinal.inputProcessor.completionSignaled = true ∧
    scenarioBFinal.metricsCalculator.session = some freshMetricsSession ∧
    freshMetricsSession.correctKeystrokes = 0 ∧
    freshMetricsSession.incorrectKeystrokes = 0 ∧
    calculateAccuracy scenarioBFinal.metricsCalculator = 100 ∧
    calculateAccuracy scenarioBFinal.metricsCalculator ≠ 75 := by
  refine ⟨by decide, by decide, by decide, rfl, rfl, by decide, by decide⟩

/-- C4: while one session is registered as active on the page, a second
session object with clean local state still fails to initialize — the
page-wide registry check rejects it — and neither the attempting session
nor the page (registry included, hence the first session) is changed. -/
theorem claim4_single_active_session (s1Id : Nat) (s2 : TypingSessionState)
    (page : PageState) (hreg : page.activeSessionId = some s1Id) (hne : s2.id ≠ s1Id)
    (hlock : s2.sessionLock = false) (hact : s2.isActive = false) :
    TypingSession.initialize s2 page = (false, s2, page) := by
  have hpage : hasActiveSessionOnPage page s2.id = true := by
    unfold hasActiveSessionOnPage
    rw [hreg]
    have h3 : decide (s1Id ≠ s2.id) = true := decide_eq_true (fun hh => hne hh.symm)
    dsimp only
    rw [h3]
    simp
  unfold TypingSession.initialize
  rw [hlock, hact, hpage]
  simp

/-- Witness for C4: concrete rejection through the registry alone. -/
theorem claim4_witness :
    wPage.activeSessionId = some 1 ∧ wSession2.id ≠ 1 ∧
    wSession2.sessionLock = false ∧ wSession2.isActive = false ∧
    TypingSession.initialize wSession2 wPage = (false, wSession2, wPage) :=
  ⟨rfl, by decide, rfl, rfl,
    claim4_single_active_session 1 wSession2 wPage rfl (by decide) rfl rfl⟩

theorem validateSelection_true (sel : JsSelection) (h : validateSelection sel = true) :
    3 ≤ (jsTrim sel.text).length ∧ (jsTrim sel.text).length ≤ 10000 ∧
    (jsTrim sel.text).any (fun c => !isJsWhitespace c) = true ∧
    sel.withinEditable = false := by
  unfold validateSelection at h
  by_cases h0 : sel.rangeCount = 0
  · rw [if_pos h0] at h; simp at h
  · rw [if_neg h0] at h
    by_cases h1 : (jsTrim sel.text).length < 3
    · rw [if_pos h1] at h; simp at h
    · rw [if_neg h1] at h
      by_cases h2 : (jsTrim sel.text).any (fun c => !isJsWhitespace c)
      · rw [if_neg (by simp [h2])] at h
        by_cases h3 : 10000 < (jsTrim sel.text).length
        · rw [if_pos h3] at h; simp at h
        · rw [if_neg h3] at h
          by_cases h4 : sel.hasRange
          · rw [if_neg (by simp [h4])] at h
            by_cases h5 : sel.hasContainer
            · rw [if_neg (by simp [h5])] at h
              by_cases h6 : sel.hasParentElement
              · rw [if_neg (by simp [h6])] at h
                by_cases h7 : sel.withinEditable
                · rw [if_pos h7] at h; simp at h
                · refine ⟨by omega, by omega, h2, ?_⟩
                  cases hh : sel.withinEditable
                  · rfl
                  · exact absurd hh h7
              · rw [if_pos (by simp [h6])] at h; simp at h
            · rw [if_pos (by simp [h5])] at h; simp at h
          · rw [if_pos (by simp [h4])] at h; simp at h
      · rw [if_pos (by simp [h2])] at h; simp at h

/-- C9: capture succeeds only for selections whose trimmed text is
non-empty, contains a non-whitespace character, has length within
[3, 10000] and does not sit inside an editable element; any selection
failing those conditions yields a `none` capture, from which no session is
built. -/
theorem claim9_selection_validation (sel : JsSelection) :
    (captureSelection sel ≠ none →
      jsTrim sel.text ≠ [] ∧
      (jsTrim sel.text).any (fun c => !isJsWhitespace c) = true ∧
      3 ≤ (jsTrim sel.text).length ∧ (jsTrim sel.text).length ≤ 10000 ∧
      sel.withinEditable = false) ∧
    (¬(jsTrim sel.text ≠ [] ∧
        (jsTrim sel.text).any (fun c => !isJsWhitespace c) = true ∧
        3 ≤ (jsTrim sel.text).length ∧ (jsTrim sel.text).length ≤ 10000 ∧
        sel.withinEditable = false) →
      captureSelection sel = none) := by
  have main : captureSelection sel ≠ none →
      jsTrim sel.text ≠ [] ∧
      (jsTrim sel.text).any (fun c => !isJsWhitespace c) = true ∧
      3 ≤ (jsTrim sel.text).length ∧ (jsTrim sel.text).length ≤ 10000 ∧
      sel.withinEditable = false := by
    intro h
    have hv : validateSelection sel = true := by
      unfold captureSelection at h
      by_cases hvv : validateSelection sel
      · exact hvv
      · simp [hvv] at h
    obtain ⟨ha, hb, hc, hd⟩ := validateSelection_true sel hv
    refine ⟨?_, hc, ha, hb, hd⟩
    intro hnil
    rw [hnil] at ha
    simp at ha
  refine ⟨main, fun hn => ?_⟩
  by_cases hcap : captureSelection sel = none
  · exact hcap
  · exact absurd (main hcap) hn

/-- Witness for C9: a successful concrete capture meets every condition. -/
theorem claim9_witness :
    captureSelection wSelection ≠ none ∧
    (jsTrim wSelection.text ≠ [] ∧
      (jsTrim wSelection.text).any (fun c => !isJsWhitespace c) = true ∧
      3 ≤ (jsTrim wSelection.text).length ∧ (jsTrim wSelection.text).length ≤ 10000 ∧
      wSelection.withinEditable = false) :=
  ⟨by decide, (claim9_selection_validation wSelection).1 (by decide)⟩

/-- C10: `validateCharacter` rejects a missing input or expected character,
so at the end of the content (expected character undefined) every keystroke
yields an unsuccessful result, the position stays put and completion is not
re-signalled. -/
theorem claim10_no_typing_past_end :
    (∀ e, validateCharacter none e = false) ∧
    (∀ i, validateCharacter i none = false) ∧
    (∀ (st : InputProcessorState) (text : List Char) (c : Option Char),
      st.content = some text → st.currentPosition = text.length →
      ((processKeyInput st c).2.success = false ∧
       (processKeyInput st c).1.currentPosition = st.currentPosition ∧
       (processKeyInput st c).1.completionSignaled = st.completionSignaled)) := by
  refine ⟨fun e => rfl, fun i => ?_, ?_⟩
  · cases i <;> rfl
  · intro st text c hc hp
    unfold processKeyInput
    by_cases hproc : st.isProcessing
    · rw [if_pos hproc]
      exact ⟨by simp, rfl, rfl⟩
    · rw [if_neg hproc, hc]
      dsimp only
      have hexp : text[st.currentPosition]? = none := by
        rw [List.getElem?_eq_none_iff]; omega
      rw [hexp]
      have hval : validateCharacter c none = false := by cases c <;> rfl
      rw [hval]
      simp only [Bool.false_eq_true, if_false]
      exact ⟨by simp, rfl, rfl⟩

/-- Witness for C10 at a concrete end-of-text state. -/
theorem claim10_witness :
    wEndState.content = some ("cat".toList) ∧
    wEndState.currentPosition = ("cat".toList).length ∧
    ((processKeyInput wEndState (some 't')).2.success = false ∧
     (processKeyInput wEndState (some 't')).1.currentPosition = wEndState.currentPosition ∧
     (processKeyInput wEndState (some 't')).1.completionSignaled =
       wEndState.completionSignaled) :=
  ⟨rfl, by decide,
    claim10_no_typing_past_end.2.2 wEndState ("cat".toList) (some 't') rfl (by decide)⟩

/-- C6 counterexample: the source accepts input k against expected U+212A
KELVIN SIGN — both JS-lowercase to k and the input is an ASCII letter —
while the claimed relation (case-insensitive equality restricted to ASCII
letters, every other pair rejected) rejects that pair, since U+212A is not
an ASCII letter. -/
theorem claim6_counterexample :
    validateCharacter (some 'k') (some '\u212A') = true ∧
    ¬claimCharEquivalence 'k' '\u212A' := by
  refine ⟨by decide, ?_⟩
  rintro (h | ⟨-, he⟩ | ⟨-, he⟩ | ⟨-, hb, -⟩)
  · exact absurd h (by decide)
  · exact absurd he (by decide)
  · exact absurd he (by decide)
  · exact absurd hb (by decide)

/-- C6 (amended): a keystroke is accepted exactly when input and expected
character match under: exact equality, or whitespace-class equivalence
(space and NBSP interchangeable, CR and LF interchangeable), or
case-insensitive equality under JS lowercasing in which the input
character is an ASCII letter (the expected character may also be a
non-ASCII code point, such as U+212A KELVIN SIGN, whose lowercase is an
ASCII letter); every other pair is rejected. -/
theorem claim6_character_equivalence_amended (input expected : Char) :
    validateCharacter (some input) (some expected) = true ↔
      amendedCharEquivalence input expected := by
  have tabkey : input = '\t' → expected = '\t' → input = expected :=
    fun h1 h2 => h1.trans h2.symm
  unfold validateCharacter amendedCharEquivalence areCharactersEquivalent
  simp only [Bool.or_eq_true, Bool.and_eq_true, beq_iff_eq, decide_eq_true_eq,
    List.mem_cons, List.mem_singleton, List.not_mem_nil, or_false]
  constructor
  · intro h
    tauto
  · intro h
    tauto

/-- Witness for the amended C6: the Kelvin-sign pair is accepted through
the amended case-insensitive clause. -/
theorem claim6_amended_witness :
    validateCharacter (some 'k') (some '\u212A') = true :=
  (claim6_character_equivalence_amended 'k' '\u212A').mpr
    (Or.inr (Or.inr (Or.inr ⟨by decide, by decide⟩)))

theorem validateCharacter_right_none (i : Option Char) :
    validateCharacter i none = false := by
  cases i <;> rfl

theorem processKeyInput_content (st : InputProcessorState) (c : Option Char) :
    (processKeyInput st c).1.content = st.content := by
  unfold processKeyInput
  by_cases hproc : st.isProcessing
  · rw [if_pos hproc]
  · rw [if_neg hproc]
    cases hcont : st.content with
    | none => exact hcont
    | some text =>
      dsimp only
      split
      · exact hcont
      · exact hcont

theorem processKeyInput_success (st : InputProcessorState) (c : Option Char)
    (h : (processKeyInput st c).2.success = true) :
    (processKeyInput st c).1.currentPosition = st.currentPosition + 1 ∧
    ∃ text, st.content = some text ∧ st.currentPosition < text.length := by
  unfold processKeyInput at h ⊢
  by_cases hproc : st.isProcessing
  · rw [if_pos hproc] at h; simp at h
  · rw [if_neg hproc] at h ⊢
    cases hcont : st.content with
    | none =>
      rw [hcont] at h
      simp at h
    | some text =>
      rw [hcont] at h
      dsimp only at h ⊢
      by_cases hv : validateCharacter c text[st.currentPosition]?
      · rw [if_pos hv]
        refine ⟨rfl, text, rfl, ?_⟩
        by_cases hlen : st.currentPosition < text.length
        · exact hlen
        · exfalso
          have hnone : text[st.currentPosition]? = none := by
            rw [List.getElem?_eq_none_iff]; omega
          rw [hnone, validateCharacter_right_none] at hv
          cases hv
      · rw [if_neg hv] at h
        dsimp only at h
        exact absurd h hv

theorem processKeyInput_failure (st : InputProcessorState) (c : Option Char)
    (h : (processKeyInput st c).2.success = false) :
    (processKeyInput st c).1.currentPosition = st.currentPosition := by
  unfold processKeyInput at h ⊢
  by_cases hproc : st.isProcessing
  · rw [if_pos hproc]
  · rw [if_neg hproc] at h ⊢
    cases hcont : st.content with
    | none => rfl
    | some text =>
      rw [hcont] at h
      dsimp only at h ⊢
      by_cases hv : validateCharacter c text[st.currentPosition]?
      · rw [if_pos hv] at h
        dsimp only at h
        rw [hv] at h
        simp at h
      · rw [if_neg hv]
        rfl

theorem skipCharacter_content (st : InputProcessorState) :
    (skipCharacter st).content = st.content := by
  unfold skipCharacter
  cases hcont : st.content with
  | none => exact hcont
  | some text =>
    dsimp only
    split
    · exact hcont
    · rfl

theorem skipParagraph_content (st : InputProcessorState) :
    (skipParagraph st).content = st.content := by
  unfold skipParagraph
  cases hcont : st.content with
  | none => exact hcont
  | some text =>
    dsimp only
    split
    · exact hcont
    · rfl

theorem handleBackspace_content (st : InputProcessorState) :
    (handleBackspace st).content = st.content := by
  unfold handleBackspace
  by_cases hp : 0 < st.currentPosition
  · rw [if_pos hp]
  · rw [if_neg hp]

theorem skipParagraph_position (st : InputProcessorState) (text : List Char)
    (hc : st.content = some text) (hlt : st.currentPosition < text.length) :
    (skipParagraph st).currentPosition =
      (findNextParagraphBoundary text st.currentPosition).getD text.length := by
  unfold skipParagraph
  rw [hc]
  dsimp only
  rw [if_neg (by omega)]

/-- C3: the current position strictly advances on every accepted keystroke
and every performed skip, retreats by exactly one on backspace from a
positive position and stays at zero otherwise, is unchanged by a rejected
keystroke, and every keyboard operation keeps it within the content
bounds. -/
theorem claim3_position_monotonicity :
    (∀ (st : InputProcessorState) (c : Option Char),
      ((processKeyInput st c).2.success = true →
        (processKeyInput st c).1.currentPosition = st.currentPosition + 1) ∧
      ((processKeyInput st c).2.success = false →
        (processKeyInput st c).1.currentPosition = st.currentPosition)) ∧
    (∀ (st : InputProcessorState) (text : List Char),
      st.content = some text → st.currentPosition < text.length →
      (skipCharacter st).currentPosition = st.currentPosition + 1) ∧
    (∀ (st : InputProcessorState) (text : List Char),
      st.content = some text → st.currentPosition < text.length →
      st.currentPosition < (skipParagraph st).currentPosition) ∧
    (∀ st : InputProcessorState, 0 < st.currentPosition →
      (handleBackspace st).currentPosition = st.currentPosition - 1) ∧
    (∀ st : InputProcessorState, st.currentPosition = 0 →
      (handleBackspace st).currentPosition = 0) ∧
    (∀ (st : InputProcessorState) (op : InputOp),
      st.currentPosition ≤ (st.content.getD []).length →
      (applyInputOp st op).content = st.content ∧
      (applyInputOp st op).currentPosition ≤ ((applyInputOp st op).content.getD []).length) := by
  have hskipchar : ∀ (st : InputProcessorState) (text : List Char),
      st.content = some text → st.currentPosition < text.length →
      (skipCharacter st).currentPosition = st.currentPosition + 1 := by
    intro st text hc hlt
    unfold skipCharacter
    rw [hc]
    dsimp only
    rw [if_neg (by omega)]
  have hskippar : ∀ (st : InputProcessorState) (text : List Char),
      st.content = some text → st.currentPosition < text.length →
      st.currentPosition < (skipParagraph st).currentPosition ∧
      (skipParagraph st).currentPosition ≤ text.length := by
    intro st text hc hlt
    rw [skipParagraph_position st text hc hlt]
    cases hfb : findNextParagraphBoundary text st.currentPosition with
    | none => simpa using hlt
    | some b =>
      obtain ⟨h1, h2⟩ := paragraphBoundary_bounds hfb
      simpa using ⟨h1, h2⟩
  have hback : ∀ st : InputProcessorState, 0 < st.currentPosition →
      (handleBackspace st).currentPosition = st.currentPosition - 1 := by
    intro st hp
    unfold handleBackspace
    rw [if_pos hp]
  have hback0 : ∀ st : InputProcessorState, st.currentPosition = 0 →
      (handleBackspace st).currentPosition = 0 := by
    intro st hp
    unfold handleBackspace
    rw [if_neg (by omega)]
    exact hp
  refine ⟨fun st c => ⟨fun h => (processKeyInput_success st c h).1,
    processKeyInput_failure st c⟩,
    hskipchar, fun st text hc hlt => (hskippar st text hc hlt).1, hback, hback0, ?_⟩
  intro st op hb
  cases op with
  | keystroke c =>
    dsimp only [applyInputOp]
    refine ⟨processKeyInput_content st c, ?_⟩
    rw [processKeyInput_content st c]
    by_cases hs : (processKeyInput st c).2.success
    · obtain ⟨hpos, text, hc2, hlt⟩ := processKeyInput_success st c hs
      rw [hpos, hc2]
      simpa using hlt
    · have hs2 : (processKeyInput st c).2.success = false := by
        cases hh : (processKeyInput st c).2.success
        · rfl
        · exact absurd hh hs
      rw [processKeyInput_failure st c hs2]
      exact hb
  | tab =>
    dsimp only [applyInputOp]
    refine ⟨skipCharacter_content st, ?_⟩
    rw [skipCharacter_content st]
    cases hc : st.content with
    | none =>
      unfold skipCharacter
      rw [hc]
      rw [hc] at hb
      exact hb
    | some text =>
      by_cases hlt : st.currentPosition < text.length
      · rw [hskipchar st text hc hlt]
        simpa using hlt
      · unfold skipCharacter
        rw [hc]
        dsimp only
        rw [if_pos (by omega)]
        rw [hc] at hb
        exact hb
  | shiftTab =>
    dsimp only [applyInputOp]
    refine ⟨skipParagraph_content st, ?_⟩
    rw [skipParagraph_content st]
    cases hc : st.content with
    | none =>
      unfold skipParagraph
      rw [hc]
      rw [hc] at hb
      exact hb
    | some text =>
      by_cases hlt : st.currentPosition < text.length
      · have := (hskippar st text hc hlt).2
        simpa using this
      · unfold skipParagraph
        rw [hc]
        dsimp only
        rw [if_pos (by omega)]
        rw [hc] at hb
        exact hb
  | backspace =>
    dsimp only [applyInputOp]
    refine ⟨handleBackspace_content st, ?_⟩
    rw [handleBackspace_content st]
    by_cases hp : 0 < st.currentPosition
    · rw [hback st hp]
      omega
    · rw [hback0 st (by omega)]
      omega

/-- Witness for C3: a concrete skip advances the position by one. -/
theorem claim3_witness :
    wSkipState.content = some ("ab".toList) ∧
    wSkipState.currentPosition < ("ab".toList).length ∧
    (skipCharacter wSkipState).currentPosition = wSkipState.currentPosition + 1 :=
  ⟨rfl, by decide,
    claim3_position_monotonicity.2.1 wSkipState ("ab".toList) rfl (by decide)⟩

/-- C5: the Shift+Tab boundary search equals the specification's
prioritized search (double newline, then single newline before
non-whitespace, then sentence punctuation before whitespace and an
uppercase letter, each boundary placed as the claim states), skipping logs
one entry per traversed offset and moves the position to the boundary, and
on "a\n\nb" from 0 the boundary is 3 with skips logged at 0, 1, 2. -/
theorem claim5_paragraph_boundary_search :
    (∀ (text : List Char) (startPos : Nat),
      findNextParagraphBoundary text startPos = specParagraphBoundary text startPos) ∧
    (∀ (st : InputProcessorState) (text : List Char),
      st.content = some text → st.currentPosition < text.length →
      (skipParagraph st).skippedLog = st.skippedLog ++
        List.range' st.currentPosition
          ((findNextParagraphBoundary text st.currentPosition).getD text.length
            - st.currentPosition) ∧
      (skipParagraph st).currentPosition =
        (findNextParagraphBoundary text st.currentPosition).getD text.length) ∧
    (findNextParagraphBoundary ("a\n\nb".toList) 0 = some 3) ∧
    ((skipParagraph scenarioCState).currentPosition = 3 ∧
     (skipParagraph scenarioCState).skippedLog = [0, 1, 2]) := by
  refine ⟨paragraphBoundary_refines, ?_, by decide, by decide, by decide⟩
  intro st text hc hlt
  unfold skipParagraph
  rw [hc]
  dsimp only
  rw [if_neg (by omega)]
  exact ⟨rfl, rfl⟩

/-- Witness for C5: the skip-log law applied at the Scenario C state. -/
theorem claim5_witness :
    scenarioCState.content = some ("a\n\nb".toList) ∧
    scenarioCState.currentPosition < ("a\n\nb".toList).length ∧
    ((skipParagraph scenarioCState).skippedLog = scenarioCState.skippedLog ++
        List.range' scenarioCState.currentPosition
          ((findNextParagraphBoundary ("a\n\nb".toList)
              scenarioCState.currentPosition).getD ("a\n\nb".toList).length
            - scenarioCState.currentPosition) ∧
     (skipParagraph scenarioCState).currentPosition =
       (findNextParagraphBoundary ("a\n\nb".toList)
           scenarioCState.currentPosition).getD ("a\n\nb".toList).length) :=
  ⟨rfl, by decide,
    claim5_paragraph_boundary_search.2.1 scenarioCState ("a\n\nb".toList) rfl (by decide)⟩
